import Mathlib

/-!
Shallow embedding of the ego-tree crate's core (src/lib.rs): a Vec-backed
mutable tree ("arena") with process-unique tree ids, weak node handles
validated by id, and read/write cursors.

Machine integers: the tree-id counter is an AtomicUsize whose fetch_add
wraps at 2^64; we model it as a Nat kept below USIZE = 2^64, with the
wrap written explicitly.  Vec<Node<T>> is a List.  The unchecked storage
accesses (Vec::get_unchecked) are partial: we model them with Option,
where none stands for the out-of-bounds case that Rust leaves undefined.
Methods taking &mut self are modelled in state-passing style, returning
the (possibly updated) tree alongside their result.
-/

namespace EgoTree

/-- Width of usize (64-bit platform): the id counter wraps at this bound. -/
def USIZE : Nat := 2 ^ 64

/-- Node record: a value plus four optional structural links, exactly the
fields of struct Node<T> in lib.rs (indices into the arena's storage). -/
structure Node (T : Type) where
  parent : Option Nat
  prev_sibling : Option Nat
  next_sibling : Option Nat
  children : Option (Nat × Nat)
  value : T
deriving DecidableEq

/-- Node::new: a node with the given value and no links. -/
def Node.new {T : Type} (value : T) : Node T :=
  { parent := none, prev_sibling := none, next_sibling := none,
    children := none, value := value }

/-- The arena: struct Tree<T> { id: usize, vec: Vec<Node<T>> }. -/
structure Tree (T : Type) where
  id : Nat
  vec : List (Node T)
deriving DecidableEq

/-- Weak handle: struct NodeId<T> { tree_id: usize, index: usize }
(the PhantomData marker carries no data and is dropped). -/
structure NodeId (T : Type) where
  tree_id : Nat
  index : Nat
deriving DecidableEq

/-- Read cursor: struct NodeRef<,a, T> { tree: &,a Tree<T>, node: &,a Node<T>,
index: usize } (borrows become values in the embedding). -/
structure NodeRef (T : Type) where
  tree : Tree T
  node : Node T
  index : Nat
deriving DecidableEq

/-- Write cursor: struct NodeMut<,a, T> { tree: &,a mut Tree<T>, index: usize };
the exclusively borrowed tree is passed separately in state-passing style,
so the cursor value reduces to its index. -/
structure NodeMut where
  index : Nat
deriving DecidableEq

/-- The panics of lib.rs, under the spec's error taxonomy: the failed
assert_eq in validate_id is InvalidHandle; an unchecked access out of
bounds (undefined behaviour in Rust) is IndexOutOfRange.  The last two
are the failures of the cursor mutation methods named by the spec. -/
inductive Err
  | invalidHandle
  | indexOutOfRange
  | cannotDetachRoot
  | rootHasNoSiblings
deriving DecidableEq

/-- TREE_ID_SEQ.fetch_add(1, Relaxed): returns the counter's current value
and stores the incremented value, wrapping at usize width. -/
def tree_id_seq_next (seq : Nat) : Nat × Nat :=
  (seq, (seq + 1) % USIZE)

/-- Tree::new. -/
def Tree.new {T : Type} (root : T) (seq : Nat) : Tree T × Nat :=
  let p := tree_id_seq_next seq
  ({ id := p.1, vec := [Node.new root] }, p.2)

/-- Tree::with_capacity: capacity only pre-reserves storage, which has no
observable effect on the model. -/
def Tree.with_capacity {T : Type} (root : T) (capacity : Nat) (seq : Nat) :
    Tree T × Nat :=
  let p := tree_id_seq_next seq
  let _ := capacity
  ({ id := p.1, vec := [Node.new root] }, p.2)

/-- Tree::get_node_unchecked: unsafe vec.get_unchecked(index); none models
the out-of-bounds case Rust leaves undefined. -/
def Tree.get_node_unchecked {T : Type} (t : Tree T) (index : Nat) :
    Option (Node T) :=
  t.vec[index]?

/-- Tree::get_node_unchecked_mut: same access, through &mut self. -/
def Tree.get_node_unchecked_mut {T : Type} (t : Tree T) (index : Nat) :
    Option (Node T) :=
  t.vec[index]?

/-- Tree::get_unchecked: builds a NodeRef holding the node read by
get_node_unchecked. -/
def Tree.get_unchecked {T : Type} (t : Tree T) (index : Nat) :
    Option (NodeRef T) :=
  (t.get_node_unchecked index).map fun n =>
    { tree := t, node := n, index := index }

/-- Tree::get_unchecked_mut: builds a NodeMut from the index alone; no
storage is read. -/
def Tree.get_unchecked_mut {T : Type} (t : Tree T) (index : Nat) : NodeMut :=
  { index := index }

/-- Tree::root: get_unchecked(0). -/
def Tree.root {T : Type} (t : Tree T) : Option (NodeRef T) :=
  t.get_unchecked 0

/-- Tree::root_mut: get_unchecked_mut(0); &mut self returns the tree
unchanged alongside the cursor. -/
def Tree.root_mut {T : Type} (t : Tree T) : NodeMut × Tree T :=
  (t.get_unchecked_mut 0, t)

/-- Tree::orphan: push a linkless node and return a write cursor to it. -/
def Tree.orphan {T : Type} (t : Tree T) (v : T) : NodeMut × Tree T :=
  let id := t.vec.length
  let t2 : Tree T := { t with vec := t.vec ++ [Node.new v] }
  (Tree.get_unchecked_mut t2 id, t2)

/-- Tree::validate_id: assert_eq!(self.id, id.tree_id); on success the
handle's index is returned. -/
def Tree.validate_id {T : Type} (t : Tree T) (id : NodeId T) : Except Err Nat :=
  if t.id = id.tree_id then Except.ok id.index else Except.error Err.invalidHandle

/-- Tree::get: get_unchecked(validate_id(id)). -/
def Tree.get {T : Type} (t : Tree T) (id : NodeId T) : Except Err (NodeRef T) :=
  match t.validate_id id with
  | Except.error e => Except.error e
  | Except.ok index =>
    match t.get_unchecked index with
    | some r => Except.ok r
    | none => Except.error Err.indexOutOfRange

/-- Tree::get_mut: get_unchecked_mut(validate_id(id)); no node record is
read or written, and the tree is returned unchanged. -/
def Tree.get_mut {T : Type} (t : Tree T) (id : NodeId T) :
    Except Err NodeMut × Tree T :=
  match t.validate_id id with
  | Except.error e => (Except.error e, t)
  | Except.ok index => (Except.ok (t.get_unchecked_mut index), t)

/-- Tree::node_id: the handle (self.id, index). -/
def Tree.node_id {T : Type} (t : Tree T) (index : Nat) : NodeId T :=
  { tree_id := t.id, index := index }

/-- impl Clone for Tree: vec cloned verbatim, a fresh id from the counter. -/
def Tree.clone {T : Type} (t : Tree T) (seq : Nat) : Tree T × Nat :=
  let p := tree_id_seq_next seq
  ({ id := p.1, vec := t.vec }, p.2)

/-- impl PartialEq for Tree: self.vec == other.vec; the id takes no part. -/
def Tree.eq {T : Type} (t1 t2 : Tree T) : Prop :=
  t1.vec = t2.vec

instance {T : Type} [DecidableEq T] (t1 t2 : Tree T) : Decidable (Tree.eq t1 t2) :=
  inferInstanceAs (Decidable (t1.vec = t2.vec))

/-- Modelled from the spec: NodeRef::parent (module node_ref is not among the
sources; the spec says each navigation method follows the corresponding link,
absent link means empty result). -/
def NodeRef.parent {T : Type} (r : NodeRef T) : Option (NodeRef T) :=
  r.node.parent.bind fun i => Tree.get_unchecked r.tree i

/-- Modelled from the spec: NodeMut::value_mut used for in-place modification
of the stored value (module node_mut is not among the sources). -/
def Tree.setValueAt {T : Type} (t : Tree T) (i : Nat) (v : T) : Tree T :=
  { t with vec := t.vec.modify (fun n => { n with value := v }) i }

/-- Modelled from the spec: NodeMut::append at index i (module node_mut is
not among the sources).  Creates a new node in storage with parent i; if i
has a last child l, links the new node after l and updates children.last;
otherwise sets children = (new, new).  Returns the new tree and the new
node's index. -/
def Tree.appendAt {T : Type} (t : Tree T) (i : Nat) (v : T) : Tree T × Nat :=
  let newIdx := t.vec.length
  match (t.vec[i]?).bind Node.children with
  | some fl =>
    let vec1 : List (Node T) := t.vec.modify (fun n => { n with next_sibling := some newIdx }) fl.2
    let vec2 : List (Node T) := vec1.modify (fun n => { n with children := some (fl.1, newIdx) }) i
    let newNode : Node T :=
      { Node.new v with parent := some i, prev_sibling := some fl.2 }
    ({ t with vec := vec2 ++ [newNode] }, newIdx)
  | none =>
    let vec2 : List (Node T) := t.vec.modify (fun n => { n with children := some (newIdx, newIdx) }) i
    let newNode : Node T := { Node.new v with parent := some i }
    ({ t with vec := vec2 ++ [newNode] }, newIdx)

/-- Modelled from the spec: NodeMut::insert_before at index i (module
node_mut is not among the sources).  Fails with RootHasNoSiblings when i is
the root; otherwise splices a new node before i in the sibling chain,
updating the previous sibling's next link or the parent's children.first. -/
def Tree.insertBeforeAt {T : Type} (t : Tree T) (i : Nat) (v : T) :
    Except Err (Tree T × Nat) :=
  if i = 0 then Except.error Err.rootHasNoSiblings
  else
    match t.vec[i]? with
    | none => Except.error Err.indexOutOfRange
    | some cur =>
      let newIdx := t.vec.length
      let newNode : Node T :=
        { parent := cur.parent, prev_sibling := cur.prev_sibling,
          next_sibling := some i, children := none, value := v }
      let vec1 : List (Node T) :=
        match cur.prev_sibling with
        | some p => t.vec.modify (fun n => { n with next_sibling := some newIdx }) p
        | none =>
          match cur.parent with
          | some q =>
            t.vec.modify
              (fun n => { n with children := n.children.map fun fl => (newIdx, fl.2) }) q
          | none => t.vec
      let vec2 : List (Node T) := vec1.modify (fun n => { n with prev_sibling := some newIdx }) i
      Except.ok ({ t with vec := vec2 ++ [newNode] }, newIdx)

/-- Modelled from the spec: NodeMut::insert_after at index i, symmetric to
insert_before (module node_mut is not among the sources). -/
def Tree.insertAfterAt {T : Type} (t : Tree T) (i : Nat) (v : T) :
    Except Err (Tree T × Nat) :=
  if i = 0 then Except.error Err.rootHasNoSiblings
  else
    match t.vec[i]? with
    | none => Except.error Err.indexOutOfRange
    | some cur =>
      let newIdx := t.vec.length
      let newNode : Node T :=
        { parent := cur.parent, prev_sibling := some i,
          next_sibling := cur.next_sibling, children := none, value := v }
      let vec1 : List (Node T) :=
        match cur.next_sibling with
        | some p => t.vec.modify (fun n => { n with prev_sibling := some newIdx }) p
        | none =>
          match cur.parent with
          | some q =>
            t.vec.modify
              (fun n => { n with children := n.children.map fun fl => (fl.1, newIdx) }) q
          | none => t.vec
      let vec2 : List (Node T) := vec1.modify (fun n => { n with next_sibling := some newIdx }) i
      Except.ok ({ t with vec := vec2 ++ [newNode] }, newIdx)

/-- Modelled from the spec: NodeMut::detach at index i (module node_mut is
not among the sources).  Fails with CannotDetachRoot on the root; a no-op
when the parent link is already absent; otherwise clears the node's links
and rewires its former neighbours and its parent's children pair. -/
def Tree.detachAt {T : Type} (t : Tree T) (i : Nat) : Except Err (Tree T) :=
  if i = 0 then Except.error Err.cannotDetachRoot
  else
    match t.vec[i]? with
    | none => Except.error Err.indexOutOfRange
    | some cur =>
      match cur.parent with
      | none => Except.ok t
      | some p =>
        let vec1 : List (Node T) := t.vec.modify
          (fun n => { n with parent := none, prev_sibling := none, next_sibling := none }) i
        let vec2 : List (Node T) :=
          match cur.prev_sibling with
          | some q => vec1.modify (fun n => { n with next_sibling := cur.next_sibling }) q
          | none => vec1
        let vec3 : List (Node T) :=
          match cur.next_sibling with
          | some q => vec2.modify (fun n => { n with prev_sibling := cur.prev_sibling }) q
          | none => vec2
        let vec4 : List (Node T) :=
          match cur.prev_sibling, cur.next_sibling with
          | none, none => vec3.modify (fun n => { n with children := none }) p
          | none, some nx =>
            vec3.modify (fun n => { n with children := n.children.map fun fl => (nx, fl.2) }) p
          | some pv, none =>
            vec3.modify (fun n => { n with children := n.children.map fun fl => (fl.1, pv) }) p
          | some _, some _ => vec3
        Except.ok { t with vec := vec4 }

/-- One mutation step of a single arena: the &mut self operations of the
tree and its write cursors.  Lookup operations do not change the tree and
are covered by reflexivity in Steps. -/
inductive Step {T : Type} : Tree T → Tree T → Prop
  | orphan (t : Tree T) (v : T) : Step t (Tree.orphan t v).2
  | append (t : Tree T) (i : Nat) (v : T) : Step t (Tree.appendAt t i v).1
  | insertBefore (t t2 : Tree T) (i j : Nat) (v : T)
      (h : Tree.insertBeforeAt t i v = Except.ok (t2, j)) : Step t t2
  | insertAfter (t t2 : Tree T) (i j : Nat) (v : T)
      (h : Tree.insertAfterAt t i v = Except.ok (t2, j)) : Step t t2
  | detach (t t2 : Tree T) (i : Nat)
      (h : Tree.detachAt t i = Except.ok t2) : Step t t2
  | setValue (t : Tree T) (i : Nat) (v : T) : Step t (Tree.setValueAt t i v)

/-- Zero or more mutation steps on one arena. -/
def Steps {T : Type} : Tree T → Tree T → Prop :=
  Relation.ReflTransGen Step

/-- Arenas reachable by the public API: constructed by new, with_capacity
or clone, then mutated by any sequence of public operations. -/
inductive Reachable {T : Type} : Tree T → Prop
  | new (v : T) (seq : Nat) : Reachable (Tree.new v seq).1
  | with_capacity (v : T) (c seq : Nat) : Reachable (Tree.with_capacity v c seq).1
  | clone (t : Tree T) (seq : Nat) (h : Reachable t) : Reachable (Tree.clone t seq).1
  | step (t t2 : Tree T) (h : Reachable t) (hs : Step t t2) : Reachable t2

/-- One arena construction: the three operations that draw a fresh id from
the global counter. -/
inductive Ctor (T : Type)
  | new (v : T)
  | withCap (v : T) (capacity : Nat)
  | clone (t : Tree T)

/-- Run one construction against the current counter value. -/
def runCtor {T : Type} : Ctor T → Nat → Tree T × Nat
  | Ctor.new v, s => Tree.new v s
  | Ctor.withCap v c, s => Tree.with_capacity v c s
  | Ctor.clone t, s => Tree.clone t s

/-- Run a sequence of constructions, threading the counter; returns the
arenas in construction order and the final counter. -/
def runCtors {T : Type} : List (Ctor T) → Nat → List (Tree T) × Nat
  | [], s => ([], s)
  | c :: cs, s =>
    let p := runCtor c s
    let q := runCtors cs p.2
    (p.1 :: q.1, q.2)

/-- C1: get(handle) and getMut(handle) fail with InvalidHandle exactly when
the handle's owning-arena id differs from the arena's id, independently of
whether the handle's index is in range; when the ids are equal they return a
cursor bound to the handle's index (for get, which also reads the node
record, the index of any handle the arena produced is in range). -/
theorem claim_C1_handle_validation {T : Type} (t : Tree T) (h : NodeId T) :
    (Tree.get t h = Except.error Err.invalidHandle ↔ h.tree_id ≠ t.id)
    ∧ ((Tree.get_mut t h).1 = Except.error Err.invalidHandle ↔ h.tree_id ≠ t.id)
    ∧ (h.tree_id = t.id → (Tree.get_mut t h).1 = Except.ok { index := h.index })
    ∧ (h.tree_id = t.id → ∀ hi : h.index < t.vec.length,
        Tree.get t h =
          Except.ok { tree := t, node := t.vec[h.index], index := h.index }) := by
  by_cases hid : t.id = h.tree_id
  · refine ⟨?_, ?_, ?_, ?_⟩
    · cases hv : t.vec[h.index]? with
      | some n =>
        simp [Tree.get, Tree.validate_id, Tree.get_unchecked,
          Tree.get_node_unchecked, hid, hv]
      | none =>
        simp [Tree.get, Tree.validate_id, Tree.get_unchecked,
          Tree.get_node_unchecked, hid, hv]
    · simp [Tree.get_mut, Tree.validate_id, hid]
    · intro _
      simp [Tree.get_mut, Tree.validate_id, Tree.get_unchecked_mut, hid]
    · intro _ hi
      simp [Tree.get, Tree.validate_id, Tree.get_unchecked,
        Tree.get_node_unchecked, hid, List.getElem?_eq_getElem hi]
  · have hne : ¬ h.tree_id = t.id := fun hc => hid hc.symm
    refine ⟨?_, ?_, ?_, ?_⟩
    · simp [Tree.get, Tree.validate_id, hid, hne]
    · simp [Tree.get_mut, Tree.validate_id, hid, hne]
    · intro hc; exact absurd hc.symm hid
    · intro hc; exact absurd hc.symm hid

/-- C4: orphan(v) appends exactly one new node at the end of storage, with
value v and all four links absent, returns a write cursor bound to the old
storage length, and removes no existing node record (the old storage is a
prefix of the new). -/
theorem claim_C4_orphan_appends {T : Type} (t : Tree T) (v : T) :
    (Tree.orphan t v).2.vec = t.vec ++ [Node.new v]
    ∧ (Tree.orphan t v).2.id = t.id
    ∧ (Tree.orphan t v).1.index = t.vec.length
    ∧ (Tree.orphan t v).2.vec.length = t.vec.length + 1
    ∧ (∀ i, i < t.vec.length → (Tree.orphan t v).2.vec[i]? = t.vec[i]?)
    ∧ (Node.new v).parent = none ∧ (Node.new v).prev_sibling = none
    ∧ (Node.new v).next_sibling = none ∧ (Node.new v).children = none
    ∧ (Node.new v).value = v := by
  refine ⟨rfl, rfl, rfl, by simp [Tree.orphan], ?_, rfl, rfl, rfl, rfl, rfl⟩
  intro i hi
  exact List.getElem?_append_left hi

/-- C9: on an id mismatch, get and getMut fail with InvalidHandle without
reading or writing any node record: getMut returns the arena unchanged, and
the result of either lookup is the same whatever the arena's storage is. -/
theorem claim_C9_mismatch_no_touch {T : Type} (t : Tree T) (h : NodeId T)
    (hne : h.tree_id ≠ t.id) :
    Tree.get t h = Except.error Err.invalidHandle
    ∧ Tree.get_mut t h = (Except.error Err.invalidHandle, t)
    ∧ (∀ w : List (Node T),
        Tree.get { id := t.id, vec := w } h = Except.error Err.invalidHandle
        ∧ Tree.get_mut { id := t.id, vec := w } h =
            (Except.error Err.invalidHandle, { id := t.id, vec := w })) := by
  have hid : ¬ t.id = h.tree_id := fun hc => hne hc.symm
  refine ⟨?_, ?_, ?_⟩
  · simp [Tree.get, Tree.validate_id, hid]
  · simp [Tree.get_mut, Tree.validate_id, hid]
  · intro w
    exact ⟨by simp [Tree.get, Tree.validate_id, hid],
      by simp [Tree.get_mut, Tree.validate_id, hid]⟩

/-- C9 witness: a handle tagged with id 99 against a freshly built arena
(id 0) is rejected and the arena is untouched. -/
theorem claim_C9_mismatch_no_touch_witness :
    Tree.get (Tree.new (5 : Nat) 0).1 { tree_id := 99, index := 0 }
        = Except.error Err.invalidHandle
    ∧ Tree.get_mut (Tree.new (5 : Nat) 0).1 { tree_id := 99, index := 0 }
        = (Except.error Err.invalidHandle, (Tree.new (5 : Nat) 0).1)
    ∧ (∀ w : List (Node Nat),
        Tree.get { id := (Tree.new (5 : Nat) 0).1.id, vec := w }
            ({ tree_id := 99, index := 0 } : NodeId Nat)
          = Except.error Err.invalidHandle
        ∧ Tree.get_mut { id := (Tree.new (5 : Nat) 0).1.id, vec := w }
            { tree_id := 99, index := 0 } =
            (Except.error Err.invalidHandle,
              { id := (Tree.new (5 : Nat) 0).1.id, vec := w })) :=
  claim_C9_mismatch_no_touch (Tree.new (5 : Nat) 0).1
    { tree_id := 99, index := 0 } (by decide)

/-- C10: the lookup operations root, rootMut, get and getMut leave the arena
entirely unchanged — the mutable-borrow lookups return the very same arena,
and the cursors a successful lookup builds are bound to that same arena. -/
theorem claim_C10_lookups_pure {T : Type} (t : Tree T) (h : NodeId T) :
    (Tree.root_mut t).2 = t
    ∧ (Tree.get_mut t h).2 = t
    ∧ (∀ r : NodeRef T, t.root = some r → r.tree = t)
    ∧ (∀ r : NodeRef T, Tree.get t h = Except.ok r → r.tree = t) := by
  refine ⟨rfl, ?_, ?_, ?_⟩
  · unfold Tree.get_mut
    cases t.validate_id h <;> rfl
  · intro r hr
    unfold Tree.root Tree.get_unchecked at hr
    rcases Option.map_eq_some'.mp hr with ⟨n, hn, hrr⟩
    cases hrr
    rfl
  · intro r hr
    unfold Tree.get at hr
    split at hr
    · cases hr
    · split at hr
      · rename_i r2 hsome
        cases hr
        unfold Tree.get_unchecked at hsome
        rcases Option.map_eq_some'.mp hsome with ⟨n, hn, hrr⟩
        cases hrr
        rfl
      · cases hr

/-- C6: two arenas are equal exactly when their storage sequences agree —
same length and, at every position, same value and same four link fields —
and the arenas' ids take no part in equality. -/
theorem claim_C6_equality_ignores_id {T : Type} (t1 t2 : Tree T) :
    (Tree.eq t1 t2 ↔
      (t1.vec.length = t2.vec.length ∧
        ∀ i, i < t1.vec.length →
          ∃ n1 n2, t1.vec[i]? = some n1 ∧ t2.vec[i]? = some n2 ∧
            n1.value = n2.value ∧ n1.parent = n2.parent ∧
            n1.prev_sibling = n2.prev_sibling ∧
            n1.next_sibling = n2.next_sibling ∧
            n1.children = n2.children))
    ∧ (∀ i1 i2 : Nat,
        Tree.eq { id := i1, vec := t1.vec } { id := i2, vec := t2.vec } ↔
          Tree.eq t1 t2) := by
  constructor
  · constructor
    · intro he
      have hv : t1.vec = t2.vec := he
      refine ⟨by rw [hv], ?_⟩
      intro i hi
      refine ⟨t1.vec[i], t1.vec[i], List.getElem?_eq_getElem hi, ?_,
        rfl, rfl, rfl, rfl, rfl⟩
      rw [← hv]
      exact List.getElem?_eq_getElem hi
    · rintro ⟨hlen, hpt⟩
      show t1.vec = t2.vec
      apply List.ext_getElem?
      intro i
      by_cases hi : i < t1.vec.length
      · rcases hpt i hi with ⟨n1, n2, e1, e2, hval, hp, hps, hns, hc⟩
        rw [e1, e2]
        cases n1
        cases n2
        simp only at hval hp hps hns hc
        simp [hval, hp, hps, hns, hc]
      · rw [List.getElem?_eq_none (Nat.le_of_not_lt hi),
          List.getElem?_eq_none (hlen ▸ Nat.le_of_not_lt hi)]
  · intro i1 i2
    exact Iff.rfl

/-- C2: a clone compares equal to the original immediately after cloning
(storage copied verbatim) and carries a fresh id, so every handle the
original produced is rejected with InvalidHandle against the clone.  The
hypothesis says the counter's current value is not the original's id, which
the global counter guarantees for every arena while ids have not wrapped. -/
theorem claim_C2_clone_eq_fresh_id {T : Type} (t : Tree T) (seq : Nat)
    (hfresh : t.id ≠ seq) :
    Tree.eq t (Tree.clone t seq).1
    ∧ Tree.eq (Tree.clone t seq).1 t
    ∧ (Tree.clone t seq).1.id ≠ t.id
    ∧ (∀ i : Nat,
        Tree.get (Tree.clone t seq).1 (Tree.node_id t i)
            = Except.error Err.invalidHandle
        ∧ (Tree.get_mut (Tree.clone t seq).1 (Tree.node_id t i)).1
            = Except.error Err.invalidHandle) := by
  have hclid : (Tree.clone t seq).1.id = seq := rfl
  have hne : (Tree.clone t seq).1.id ≠ t.id := by
    rw [hclid]; exact fun hc => hfresh hc.symm
  refine ⟨rfl, rfl, hne, ?_⟩
  intro i
  have hval : ¬ (Tree.clone t seq).1.id = (Tree.node_id t i).tree_id := by
    show ¬ (Tree.clone t seq).1.id = t.id
    exact hne
  constructor
  · simp [Tree.get, Tree.validate_id, hval]
  · simp [Tree.get_mut, Tree.validate_id, hval]

/-- C2 witness: cloning a fresh arena (id 0) at counter value 5 yields an
equal arena with id 5 that rejects the original's handles. -/
theorem claim_C2_clone_eq_fresh_id_witness :
    Tree.eq (Tree.new (7 : Nat) 0).1 (Tree.clone (Tree.new (7 : Nat) 0).1 5).1
    ∧ Tree.eq (Tree.clone (Tree.new (7 : Nat) 0).1 5).1 (Tree.new (7 : Nat) 0).1
    ∧ (Tree.clone (Tree.new (7 : Nat) 0).1 5).1.id ≠ (Tree.new (7 : Nat) 0).1.id
    ∧ (∀ i : Nat,
        Tree.get (Tree.clone (Tree.new (7 : Nat) 0).1 5).1
            (Tree.node_id (Tree.new (7 : Nat) 0).1 i)
            = Except.error Err.invalidHandle
        ∧ (Tree.get_mut (Tree.clone (Tree.new (7 : Nat) 0).1 5).1
            (Tree.node_id (Tree.new (7 : Nat) 0).1 i)).1
            = Except.error Err.invalidHandle) :=
  claim_C2_clone_eq_fresh_id (Tree.new (7 : Nat) 0).1 5 (by decide)

/-- Every construction returns the counter's current value as the new
arena's id and advances the counter by one, wrapping at usize width. -/
theorem runCtor_id_and_next {T : Type} (c : Ctor T) (s : Nat) :
    (runCtor c s).1.id = s ∧ (runCtor c s).2 = (s + 1) % USIZE := by
  cases c <;> exact ⟨rfl, rfl⟩

/-- C7: two arenas constructed one after the other receive distinct ids,
whatever the two constructions are; the hypothesis says the counter holds a
representable usize value, which it always does. -/
theorem claim_C7_sequential_ids_distinct {T : Type} (c1 c2 : Ctor T)
    (seq : Nat) (hseq : seq < USIZE) :
    (runCtor c1 seq).1.id ≠ (runCtor c2 (runCtor c1 seq).2).1.id := by
  rcases runCtor_id_and_next c1 seq with ⟨h1, h1n⟩
  rcases runCtor_id_and_next c2 (runCtor c1 seq).2 with ⟨h2, _⟩
  rw [h1, h2, h1n]
  rcases Nat.lt_or_ge (seq + 1) USIZE with hlt | hge
  · rw [Nat.mod_eq_of_lt hlt]
    omega
  · have heq : seq + 1 = USIZE := Nat.le_antisymm hseq hge
    rw [heq, Nat.mod_self]
    have : 2 ≤ USIZE := by norm_num [USIZE]
    omega

/-- C7 witness: Tree::new at counter 0 followed by Tree::new at the advanced
counter yields ids 0 and 1. -/
theorem claim_C7_sequential_ids_distinct_witness :
    ((runCtor (Ctor.new (0 : Nat)) 0).1.id
        = (runCtor (Ctor.new (1 : Nat)) (runCtor (Ctor.new (0 : Nat)) 0).2).1.id)
      = False :=
  eq_false (claim_C7_sequential_ids_distinct (Ctor.new (0 : Nat))
    (Ctor.new (1 : Nat)) 0 (by norm_num [USIZE]))

/-- A modify whose function preserves the parent field preserves the
root-parentless property. -/
theorem rootOk_modify {T : Type} {l : List (Node T)} {f : Node T → Node T}
    (i : Nat) (hf : ∀ n, (f n).parent = n.parent)
    (h : ∃ n, l[0]? = some n ∧ n.parent = none) :
    ∃ n, (List.modify f i l)[0]? = some n ∧ n.parent = none := by
  rcases h with ⟨n, hn, hp⟩
  refine ⟨if i = 0 then f n else n, ?_, ?_⟩
  · rw [List.getElem?_modify, hn]
    by_cases hi : i = 0 <;> simp [hi]
  · by_cases hi : i = 0 <;> simp [hi, hf, hp]

/-- A modify away from position 0 preserves the root-parentless property,
whatever its function does. -/
theorem rootOk_modify_ne {T : Type} {l : List (Node T)} {f : Node T → Node T}
    {i : Nat} (hi : i ≠ 0)
    (h : ∃ n, l[0]? = some n ∧ n.parent = none) :
    ∃ n, (List.modify f i l)[0]? = some n ∧ n.parent = none := by
  rcases h with ⟨n, hn, hp⟩
  refine ⟨n, ?_, hp⟩
  rw [List.getElem?_modify, hn]
  simp [hi]

/-- Appending at the end preserves the root-parentless property. -/
theorem rootOk_append {T : Type} {l l2 : List (Node T)}
    (h : ∃ n, l[0]? = some n ∧ n.parent = none) :
    ∃ n, (l ++ l2)[0]? = some n ∧ n.parent = none := by
  rcases h with ⟨n, hn, hp⟩
  have hlen : 0 < l.length := (List.getElem?_eq_some.mp hn).1
  exact ⟨n, by rw [List.getElem?_append_left hlen]; exact hn, hp⟩

/-- Every reachable arena stores a node at position 0 and that node's parent
link is absent: no public operation ever creates or moves the root, and none
ever sets the root's parent. -/
theorem reachable_root_parentless {T : Type} {t : Tree T} (ht : Reachable t) :
    ∃ n, t.vec[0]? = some n ∧ n.parent = none := by
  induction ht with
  | new v seq => exact ⟨Node.new v, rfl, rfl⟩
  | with_capacity v c seq => exact ⟨Node.new v, rfl, rfl⟩
  | clone t seq h ih => exact ih
  | step t t2 h hs ih =>
    cases hs with
    | orphan v => exact rootOk_append ih
    | append i v =>
      cases hch : (t.vec[i]?).bind Node.children with
      | some fl =>
        simp only [Tree.appendAt, hch]
        exact rootOk_append (rootOk_modify i (fun n => rfl)
          (rootOk_modify fl.2 (fun n => rfl) ih))
      | none =>
        simp only [Tree.appendAt, hch]
        exact rootOk_append (rootOk_modify i (fun n => rfl) ih)
    | insertBefore t2 i j v hok =>
      unfold Tree.insertBeforeAt at hok
      split at hok
      · cases hok
      · split at hok
        · cases hok
        · rename_i cur hcur
          cases hok
          cases cur.prev_sibling with
          | some p =>
            exact rootOk_append (rootOk_modify i (fun n => rfl)
              (rootOk_modify p (fun n => rfl) ih))
          | none =>
            cases cur.parent with
            | some q =>
              exact rootOk_append (rootOk_modify i (fun n => rfl)
                (rootOk_modify q (fun n => rfl) ih))
            | none =>
              exact rootOk_append (rootOk_modify i (fun n => rfl) ih)
    | insertAfter t2 i j v hok =>
      unfold Tree.insertAfterAt at hok
      split at hok
      · cases hok
      · split at hok
        · cases hok
        · rename_i cur hcur
          cases hok
          cases cur.next_sibling with
          | some p =>
            exact rootOk_append (rootOk_modify i (fun n => rfl)
              (rootOk_modify p (fun n => rfl) ih))
          | none =>
            cases cur.parent with
            | some q =>
              exact rootOk_append (rootOk_modify i (fun n => rfl)
                (rootOk_modify q (fun n => rfl) ih))
            | none =>
              exact rootOk_append (rootOk_modify i (fun n => rfl) ih)
    | detach t2 i hok =>
      unfold Tree.detachAt at hok
      split at hok
      · cases hok
      · rename_i hi0
        split at hok
        · cases hok
        · rename_i cur hcur
          split at hok
          · cases hok
            exact ih
          · rename_i p hpar
            cases hps : cur.prev_sibling with
            | some pv =>
              cases hnx : cur.next_sibling with
              | some nx =>
                rw [hps, hnx] at hok
                cases hok
                exact rootOk_modify nx (fun n => rfl)
                  (rootOk_modify pv (fun n => rfl) (rootOk_modify_ne hi0 ih))
              | none =>
                rw [hps, hnx] at hok
                cases hok
                exact rootOk_modify p (fun n => rfl)
                  (rootOk_modify pv (fun n => rfl) (rootOk_modify_ne hi0 ih))
            | none =>
              cases hnx : cur.next_sibling with
              | some nx =>
                rw [hps, hnx] at hok
                cases hok
                exact rootOk_modify p (fun n => rfl)
                  (rootOk_modify nx (fun n => rfl) (rootOk_modify_ne hi0 ih))
              | none =>
                rw [hps, hnx] at hok
                cases hok
                exact rootOk_modify p (fun n => rfl) (rootOk_modify_ne hi0 ih)
    | setValue i v =>
      exact rootOk_modify i (fun n => rfl) ih

/-- C3: after every public operation the node at storage position 0 exists
and its parent link is absent; root() returns a read cursor bound to index 0
whose parent() is absent, and rootMut() returns a write cursor bound to
index 0. -/
theorem claim_C3_root_always_parentless {T : Type} (t : Tree T)
    (ht : Reachable t) :
    (∃ n, t.vec[0]? = some n ∧ n.parent = none)
    ∧ (∃ r : NodeRef T, t.root = some r ∧ r.index = 0 ∧ NodeRef.parent r = none)
    ∧ (Tree.root_mut t).1.index = 0 := by
  rcases reachable_root_parentless ht with ⟨n, hn, hp⟩
  refine ⟨⟨n, hn, hp⟩, ⟨{ tree := t, node := n, index := 0 }, ?_, rfl, ?_⟩, rfl⟩
  · unfold Tree.root Tree.get_unchecked Tree.get_node_unchecked
    rw [hn]
    rfl
  · unfold NodeRef.parent
    simp [hp]

/-- C3 witness: the invariant at a freshly constructed arena. -/
theorem claim_C3_root_always_parentless_witness :
    (∃ n, (Tree.new (3 : Nat) 0).1.vec[0]? = some n ∧ n.parent = none)
    ∧ (∃ r : NodeRef Nat, (Tree.new (3 : Nat) 0).1.root = some r ∧ r.index = 0
        ∧ NodeRef.parent r = none)
    ∧ (Tree.root_mut (Tree.new (3 : Nat) 0).1).1.index = 0 :=
  claim_C3_root_always_parentless (Tree.new (3 : Nat) 0).1 (Reachable.new 3 0)

/-- One mutation step never shrinks the arena's storage. -/
theorem step_length_le {T : Type} {t t2 : Tree T} (hs : Step t t2) :
    t.vec.length ≤ t2.vec.length := by
  cases hs with
  | orphan v => simp [Tree.orphan]
  | append i v =>
    cases hch : (t.vec[i]?).bind Node.children with
    | some fl => simp [Tree.appendAt, hch, List.length_modify]
    | none => simp [Tree.appendAt, hch, List.length_modify]
  | insertBefore t2 i j v hok =>
    unfold Tree.insertBeforeAt at hok
    split at hok
    · cases hok
    · split at hok
      · cases hok
      · rename_i cur hcur
        cases hok
        cases cur.prev_sibling with
        | some p => simp [List.length_modify]
        | none =>
          cases cur.parent with
          | some q => simp [List.length_modify]
          | none => simp
  | insertAfter t2 i j v hok =>
    unfold Tree.insertAfterAt at hok
    split at hok
    · cases hok
    · split at hok
      · cases hok
      · rename_i cur hcur
        cases hok
        cases cur.next_sibling with
        | some p => simp [List.length_modify]
        | none =>
          cases cur.parent with
          | some q => simp [List.length_modify]
          | none => simp
  | detach t2 i hok =>
    unfold Tree.detachAt at hok
    split at hok
    · cases hok
    · split at hok
      · cases hok
      · rename_i cur hcur
        split at hok
        · cases hok
          exact le_refl _
        · rename_i p hpar
          cases hps : cur.prev_sibling with
          | some pv =>
            cases hnx : cur.next_sibling with
            | some nx =>
              rw [hps, hnx] at hok
              cases hok
              simp [List.length_modify]
            | none =>
              rw [hps, hnx] at hok
              cases hok
              simp [List.length_modify]
          | none =>
            cases hnx : cur.next_sibling with
            | some nx =>
              rw [hps, hnx] at hok
              cases hok
              simp [List.length_modify]
            | none =>
              rw [hps, hnx] at hok
              cases hok
              simp [List.length_modify]
  | setValue i v => simp [Tree.setValueAt, List.length_modify]

/-- Any sequence of mutation steps never shrinks the arena's storage. -/
theorem steps_length_le {T : Type} {t t2 : Tree T} (hs : Steps t t2) :
    t.vec.length ≤ t2.vec.length := by
  induction hs with
  | refl => exact le_refl _
  | tail hab hbc ih => exact le_trans ih (step_length_le hbc)

/-- C5: every index the arena itself hands out stays within bounds for the
rest of the arena's life.  A reachable arena is nonempty (so root's index 0
is in bounds), storage length never decreases across any sequence of public
mutation steps, every index in bounds before such a sequence is still in
bounds after it — so the unchecked storage reads succeed on it — and the
index orphan returns is in bounds of the arena it returns. -/
theorem claim_C5_indices_stay_in_bounds {T : Type} (t t2 : Tree T)
    (hr : Reachable t) (hs : Steps t t2) :
    0 < t.vec.length
    ∧ t.vec.length ≤ t2.vec.length
    ∧ (∀ i, i < t.vec.length →
        (Tree.get_node_unchecked t2 i).isSome
        ∧ (Tree.get_node_unchecked_mut t2 i).isSome)
    ∧ (∀ v : T, (Tree.orphan t2 v).1.index < (Tree.orphan t2 v).2.vec.length) := by
  have h0 : 0 < t.vec.length := by
    rcases reachable_root_parentless hr with ⟨n, hn, _⟩
    exact (List.getElem?_eq_some.mp hn).1
  have hlen := steps_length_le hs
  refine ⟨h0, hlen, ?_, ?_⟩
  · intro i hi
    have hi2 : i < t2.vec.length := lt_of_lt_of_le hi hlen
    constructor
    · unfold Tree.get_node_unchecked
      simp [List.getElem?_eq_getElem hi2]
    · unfold Tree.get_node_unchecked_mut
      simp [List.getElem?_eq_getElem hi2]
  · intro v
    simp [Tree.orphan, Tree.get_unchecked_mut]

/-- C5 witness: a fresh arena followed by one orphan call. -/
theorem claim_C5_indices_stay_in_bounds_witness :
    0 < (Tree.new (0 : Nat) 0).1.vec.length
    ∧ (Tree.new (0 : Nat) 0).1.vec.length
        ≤ (Tree.orphan (Tree.new (0 : Nat) 0).1 1).2.vec.length
    ∧ (∀ i, i < (Tree.new (0 : Nat) 0).1.vec.length →
        (Tree.get_node_unchecked (Tree.orphan (Tree.new (0 : Nat) 0).1 1).2 i).isSome
        ∧ (Tree.get_node_unchecked_mut
            (Tree.orphan (Tree.new (0 : Nat) 0).1 1).2 i).isSome)
    ∧ (∀ v : Nat,
        (Tree.orphan (Tree.orphan (Tree.new (0 : Nat) 0).1 1).2 v).1.index
          < (Tree.orphan (Tree.orphan (Tree.new (0 : Nat) 0).1 1).2 v).2.vec.length) :=
  claim_C5_indices_stay_in_bounds (Tree.new (0 : Nat) 0).1
    (Tree.orphan (Tree.new (0 : Nat) 0).1 1).2 (Reachable.new 0 0)
    (Relation.ReflTransGen.single (Step.orphan (Tree.new (0 : Nat) 0).1 1))

/-- The ids a construction sequence generates, with the counter's wrap made
explicit: starting from counter s < USIZE, the k-th arena gets id
(s + k) % USIZE. -/
theorem runCtors_ids_wrap {T : Type} (cs : List (Ctor T)) (s : Nat)
    (hsW : s < USIZE) :
    List.map Tree.id (runCtors cs s).1
      = List.map (fun k => (s + k) % USIZE) (List.range cs.length) := by
  induction cs generalizing s with
  | nil => rfl
  | cons c cs ih =>
    have hW : 0 < USIZE := by norm_num [USIZE]
    show (runCtor c s).1.id :: List.map Tree.id (runCtors cs (runCtor c s).2).1 = _
    rw [(runCtor_id_and_next c s).1, (runCtor_id_and_next c s).2,
      List.length_cons, List.range_succ_eq_map, List.map_cons, List.map_map,
      ih ((s + 1) % USIZE) (Nat.mod_lt _ hW)]
    congr 1
    · rw [Nat.add_zero, Nat.mod_eq_of_lt hsW]
    · congr 1
      funext k
      simp only [Function.comp_apply]
      rw [Nat.mod_add_mod]
      congr 1
      omega

/-- C8 counterexample: the id counter is a usize and fetch_add wraps, so a
process that performs 2^64 + 1 constructions sees the first id again: the
generated id list is not pairwise distinct.  The claim, as stated over every
construction sequence, is therefore false. -/
theorem claim_C8_counterexample :
    (List.map Tree.id
        (runCtors (List.replicate (USIZE + 1) (Ctor.new (0 : Nat))) 0).1).Nodup
      = False := by
  apply eq_false
  intro hnd
  have hUpos : 0 < USIZE := by norm_num [USIZE]
  have hids : List.map Tree.id
      (runCtors (List.replicate (USIZE + 1) (Ctor.new (0 : Nat))) 0).1
        = List.map (fun k => (0 + k) % USIZE) (List.range (USIZE + 1)) := by
    rw [runCtors_ids_wrap _ 0 hUpos, List.length_replicate]
  rw [hids] at hnd
  have hlen : (List.map (fun k => (0 + k) % USIZE)
      (List.range (USIZE + 1))).length = USIZE + 1 := by
    simp
  have h0 : (List.map (fun k => (0 + k) % USIZE)
      (List.range (USIZE + 1)))[0]? = some 0 := by
    rw [List.getElem?_map, List.getElem?_range (by omega)]
    simp
  have hU : (List.map (fun k => (0 + k) % USIZE)
      (List.range (USIZE + 1)))[USIZE]? = some 0 := by
    rw [List.getElem?_map, List.getElem?_range (by omega)]
    simp
  have h01 := List.getElem?_inj (by rw [hlen]; omega) hnd (h0.trans hU.symm)
  omega

/-- While the counter has not wrapped, the ids of a construction sequence
starting at counter s are s, s+1, ... in order. -/
theorem runCtors_ids_no_wrap {T : Type} (cs : List (Ctor T)) (s : Nat)
    (h : s + cs.length ≤ USIZE) :
    List.map Tree.id (runCtors cs s).1 = List.range' s cs.length := by
  induction cs generalizing s with
  | nil => rfl
  | cons c cs ih =>
    show (runCtor c s).1.id :: List.map Tree.id (runCtors cs (runCtor c s).2).1
      = List.range' s (cs.length + 1)
    rw [List.range'_succ, (runCtor_id_and_next c s).1, (runCtor_id_and_next c s).2]
    cases cs with
    | nil => rfl
    | cons c2 cs2 =>
      have hlt : s + 1 < USIZE := by
        simp only [List.length_cons] at h
        omega
      rw [Nat.mod_eq_of_lt hlt, ih (s + 1) (by simp only [List.length_cons] at h ⊢; omega)]

/-- C8 amended: the generated arena identifiers are pairwise distinct for
every construction sequence whose length does not exhaust the 2^64-wide
counter (so no wrap occurs) — the claim holds except in the theoretical
wrap-around case that the spec itself flags as an open question. -/
theorem claim_C8_ids_distinct_no_wrap {T : Type} (cs : List (Ctor T))
    (s : Nat) (h : s + cs.length ≤ USIZE) :
    (List.map Tree.id (runCtors cs s).1).Nodup := by
  rw [runCtors_ids_no_wrap cs s h]
  exact List.nodup_range' s cs.length 1 (by norm_num)

/-- C8 witness: three constructions from a fresh counter get distinct ids. -/
theorem claim_C8_ids_distinct_no_wrap_witness :
    (List.map Tree.id
        (runCtors (List.replicate 3 (Ctor.new (0 : Nat))) 0).1).Nodup :=
  claim_C8_ids_distinct_no_wrap (List.replicate 3 (Ctor.new (0 : Nat))) 0
    (by norm_num [USIZE])

end EgoTree
